import Mathlib

/-!
# Verification of the DeepPavlov cross-validation grid-search core (`deeppavlov/cv.py`)

This file shallowly embeds the grid-search / cross-validation orchestrator of
`deeppavlov/cv.py` and proves or refutes the frozen specification claims about it.

Embedding conventions:
* JSON values are the inductive `JVal` (strings, numbers as `Rat`, arrays).
* A pipeline stage (a Python `dict`) is an insertion-ordered association list
  `Stage := List (String × JVal)`; Python dict semantics (update in place keeps the
  key position, insertion appends) are modelled by `dictSet` / `dictPop` / `dictGet`.
* The file system is `FS := String → Option Nat` (path to abstract file content);
  `os.remove` and `os.rename` become pointwise updates.  `expand_path` is applied
  uniformly by the source to every path before any file operation, so the embedding
  works directly with the (expanded) path strings.
* `numpy` scores are embedded as `Rat`; `np.mean` is `npMean`, `np.argmax` is
  `npArgmax` (first index of the maximum, matching numpy's tie-break).
* The external trainable pipeline (`train_evaluate_model_from_config` together with
  `get_iterator_from_config`) is an out-of-scope collaborator; it enters the model
  as an explicit evaluator function parameter.
-/

/-- An atomic JSON value (string or number) as it occurs inside a pipeline
configuration; numbers are embedded as `Rat`. -/
inductive JAtom where
  | str : String → JAtom
  | num : Rat → JAtom
deriving DecidableEq

/-- A JSON value stored in a stage dict: an atom, or an array of atoms (the form
a `*_range` candidate list takes in the configurations covered here). -/
inductive JVal where
  | atom : JAtom → JVal
  | arr : List JAtom → JVal
deriving DecidableEq

/-- Shorthand for a JSON string value. -/
def jstr (s : String) : JVal := .atom (.str s)

/-- Shorthand for a JSON number value. -/
def jnum (q : Rat) : JVal := .atom (.num q)

/-- A pipeline stage: a Python dict embedded as an insertion-ordered association
list from key to value.  Python dicts have unique keys; stage values built by the
embedding preserve this, and theorems that need it carry a `Nodup` hypothesis. -/
abbrev Stage := List (String × JVal)

/-- `config['chainer']['pipe']`: the ordered list of stage dicts. -/
abbrev Pipe := List Stage

/-- Python `d[k]` lookup on a dict (first matching key). -/
def dictGet {β : Type} : List (String × β) → String → Option β
  | [], _ => none
  | (k', v') :: rest, k => if k' = k then some v' else dictGet rest k

/-- Python `d[k] = v`: update in place if the key is present (keeping its
position), append otherwise. -/
def dictSet {β : Type} : List (String × β) → String → β → List (String × β)
  | [], k, v => [(k, v)]
  | (k', v') :: rest, k, v =>
    if k' = k then (k, v) :: rest else (k', v') :: dictSet rest k v

/-- Python `d.pop(k)`: remove the entry for `k`.  (In Python `pop` on a missing
key raises `KeyError`; in all modelled runs the popped key is present.) -/
def dictPop {β : Type} : List (String × β) → String → List (String × β)
  | [], _ => []
  | (k', v') :: rest, k => if k' = k then rest else (k', v') :: dictPop rest k

/-- Python `k in d`. -/
def dictContains {β : Type} (d : List (String × β)) (k : String) : Bool :=
  d.any (fun kv => kv.1 = k)

/-- `PARAM_RANGE_SUFFIX_NAME = '_range'` (cv.py line 32). -/
def PARAM_RANGE_SUFFIX_NAME : String := "_range"

/-- `SAVE_PATH_ELEMENT_NAME = 'save_path'` (cv.py line 33). -/
def SAVE_PATH_ELEMENT_NAME : String := "save_path"

/-- `BACKUP_SUFFIX_FILENAME = '_backuped'` (cv.py line 34). -/
def BACKUP_SUFFIX_FILENAME : String := "_backuped"

/-- Python `str.endswith(t)`, computed on the character lists (structurally, so
that the kernel can evaluate it on concrete keys). -/
def strEndsWith (s t : String) : Bool :=
  t.data.isSuffixOf s.data

/-- The prefix of `l` strictly before the first occurrence of the pattern
`pat`, `none` when `pat` does not occur in `l`. -/
def beforeFirst (pat : List Char) : List Char → Option (List Char)
  | [] => none
  | c :: rest =>
    if pat.isPrefixOf (c :: rest) then some []
    else (beforeFirst pat rest).map (fun l => c :: l)

/-- `key.partition(PARAM_RANGE_SUFFIX_NAME)[0]`: the part of `key` before the
first occurrence of `'_range'` (the whole key if the marker is absent). -/
def stripRange (k : String) : String :=
  match beforeFirst PARAM_RANGE_SUFFIX_NAME.data k.data with
  | some l => String.mk l
  | none => k

/-- Python `str.isdigit()` restricted to ASCII digits as they occur in a
`--folds` argument: nonempty and all characters digits. -/
def pyIsDigit (s : String) : Bool :=
  !s.data.isEmpty && s.data.all Char.isDigit

/-- The candidate list carried by a range entry.  In the source the value is a
JSON array; iterating anything else would raise a `TypeError` in Python, and all
modelled configurations use arrays. -/
def jvalList : JVal → List JAtom
  | .arr l => l
  | _ => []

/-- The string carried by a `save_path` entry.  In the source the value is a
JSON string. -/
def jvalStr : JVal → String
  | .atom (.str s) => s
  | _ => ""

/-! ## File system model and the artifact lifecycle operations (cv.py lines 53-70) -/

/-- The file system: a map from (expanded) path to the content of the file at
that path, `none` when no file exists there. -/
def FS : Type := String → Option Nat

/-- `os.path.isfile(path)`. -/
def fsIsFile (fs : FS) (p : String) : Bool :=
  (fs p).isSome

/-- `os.remove(path)`. -/
def fsRemove (fs : FS) (p : String) : FS :=
  fun q => if q = p then none else fs q

/-- `os.rename(src, dst)`: the file moves from `src` to `dst` (overwriting any
file at `dst`); in every modelled call `src ≠ dst`. -/
def fsRename (fs : FS) (src dst : String) : FS :=
  fun q => if q = src then none else if q = dst then fs src else fs q

/-- `delete_saved_model(models_paths)` (cv.py lines 53-57): remove each path's
file when it exists. -/
def delete_saved_model (models_paths : List String) (fs : FS) : FS :=
  models_paths.foldl (fun fs p => if fsIsFile fs p then fsRemove fs p else fs) fs

/-- `backup_saved_models(models_paths)` (cv.py lines 59-63): rename each existing
file at `path` to `path + BACKUP_SUFFIX_FILENAME`. -/
def backup_saved_models (models_paths : List String) (fs : FS) : FS :=
  models_paths.foldl
    (fun fs p => if fsIsFile fs p then fsRename fs p (p ++ BACKUP_SUFFIX_FILENAME) else fs) fs

/-- `restore_saved_models(models_paths)` (cv.py lines 65-70): rename each existing
backup file at `path + BACKUP_SUFFIX_FILENAME` back to `path`. -/
def restore_saved_models (models_paths : List String) (fs : FS) : FS :=
  models_paths.foldl
    (fun fs p =>
      if fsIsFile fs (p ++ BACKUP_SUFFIX_FILENAME) then
        fsRename fs (p ++ BACKUP_SUFFIX_FILENAME) p
      else fs) fs

/-! ## Parameter-space extraction (cv.py lines 131-141)

The source iterates over `config['chainer']['pipe']` with `enumerate`; for every
key of a stage that ends with `'_range'` it stores the candidate list in the
`param_values` dict under the key stripped at the first `'_range'` occurrence
(`key.partition(PARAM_RANGE_SUFFIX_NAME)[0]`) and appends the stage index to
`chainer_items`; a stage that has one of the training-trigger keys together with
`'save_path'` contributes its save path to `models_paths`. -/

/-- The three accumulators of the extraction loop. -/
structure ExtractResult where
  param_values : List (String × List JAtom)
  chainer_items : List Nat
  models_paths : List String
deriving DecidableEq

/-- One stage of the extraction loop body (cv.py lines 135-141). -/
def extractStep (acc : ExtractResult) (i : Nat) (elem : Stage) : ExtractResult :=
  let acc1 := elem.foldl
    (fun a kv =>
      if strEndsWith kv.1 PARAM_RANGE_SUFFIX_NAME then
        { a with
          param_values := dictSet a.param_values (stripRange kv.1) (jvalList kv.2),
          chainer_items := a.chainer_items ++ [i] }
      else a) acc
  if (dictContains elem "in_y" || dictContains elem "fit_on" || dictContains elem "fit_on_batch")
      && dictContains elem SAVE_PATH_ELEMENT_NAME then
    { acc1 with
      models_paths :=
        acc1.models_paths ++ [jvalStr ((dictGet elem SAVE_PATH_ELEMENT_NAME).getD (jstr ""))] }
  else acc1

/-- The extraction loop over the pipe with running stage index. -/
def extractGo : Nat → Pipe → ExtractResult → ExtractResult
  | _, [], acc => acc
  | i, elem :: rest, acc => extractGo (i + 1) rest (extractStep acc i elem)

/-- `for i, elem in enumerate(config['chainer']['pipe']): ...` (cv.py lines 131-141). -/
def extractParams (pipe : Pipe) : ExtractResult :=
  extractGo 0 pipe ⟨[], [], []⟩

/-! ## numpy helpers -/

/-- `np.mean` on a list of scores: sum divided by length. -/
def npMean (l : List Rat) : Rat :=
  l.sum / l.length

/-- Scanning accumulator of `np.argmax`: strictly greater values replace the
current best, so ties keep the earlier index. -/
def npArgmaxAux : List Rat → Nat → Nat → Rat → Nat
  | [], _, bi, _ => bi
  | x :: xs, i, bi, bv =>
    if bv < x then npArgmaxAux xs (i + 1) i x else npArgmaxAux xs (i + 1) bi bv

/-- `np.argmax` on a list of scores: the index of the first occurrence of the
maximum (numpy raises on an empty input; callers guard that case). -/
def npArgmax : List Rat → Nat
  | [] => 0
  | x :: xs => npArgmaxAux xs 1 0 x

/-- `itertools.product(*value_lists)`: Cartesian product in standard order, the
last axis varying fastest (cv.py line 147). -/
def pyProduct {α : Type} : List (List α) → List (List α)
  | [] => [[]]
  | xs :: rest => xs.bind (fun x => (pyProduct rest).map (fun c => x :: c))

/-! ## Fold evaluation (cv.py lines 73-107)

`calc_loocv_score` and `calc_cvfolds_score` drive one fit+evaluate cycle per
fold through the external collaborator `train_evaluate_model_from_config`; the
collaborator enters the model as the evaluator `ev` mapping a fold's
(train, valid, test) splits to the `score['valid'][target_metric]` value.  The
`delete_saved_model(models_paths)` call made immediately before each cycle
(cv.py lines 84 and 103) is recorded as a `.reset` event and the collaborator
call as a `.fitEval` event. -/

/-- Observable events of a fold-evaluation run. -/
inductive FoldEvent where
  | reset
  | fitEval
deriving DecidableEq

/-- State threaded through a fold loop: the folds built so far, the event trace,
and the per-fold target-metric scores. -/
structure CVState (D : Type) where
  folds : List (List D × List D × List D)
  events : List FoldEvent
  scores : List Rat
deriving DecidableEq

/-- Loop body of `calc_loocv_score` (cv.py lines 78-86): per index `i` the copy
of `all_data` loses its `i`-th element to `pop(i)`, which becomes the singleton
validation split. -/
def loocvGo {D : Type} [Inhabited D] (ev : List D → List D → List D → Rat)
    (all_data : List D) : List Nat → CVState D → CVState D
  | [], st => st
  | i :: rest, st =>
    let train_i := all_data.eraseIdx i
    let valid_i := [all_data.getD i default]
    let test_i : List D := []
    loocvGo ev all_data rest
      { folds := st.folds ++ [(train_i, valid_i, test_i)],
        events := st.events ++ [.reset, .fitEval],
        scores := st.scores ++ [ev train_i valid_i test_i] }

/-- `calc_loocv_score(config, data, models_paths, target_metric)` (cv.py lines
73-88), returning `np.mean(all_scores)` together with the observable run state. -/
def calc_loocv_score {D : Type} [Inhabited D] (ev : List D → List D → List D → Rat)
    (train valid : List D) : Rat × CVState D :=
  let all_data := train ++ valid
  let st := loocvGo ev all_data (List.range all_data.length) ⟨[], [], []⟩
  (npMean st.scores, st)

/-- Loop body of `calc_cvfolds_score` (cv.py lines 97-105): each `kf.split`
element is a pair of index lists selecting the train and validation folds. -/
def cvfoldsGo {D : Type} [Inhabited D] (ev : List D → List D → List D → Rat)
    (all_data : List D) : List (List Nat × List Nat) → CVState D → CVState D
  | [], st => st
  | (train_index, valid_index) :: rest, st =>
    let train_i := train_index.map (fun j => all_data.getD j default)
    let valid_i := valid_index.map (fun j => all_data.getD j default)
    let test_i : List D := []
    cvfoldsGo ev all_data rest
      { folds := st.folds ++ [(train_i, valid_i, test_i)],
        events := st.events ++ [.reset, .fitEval],
        scores := st.scores ++ [ev train_i valid_i test_i] }

/-- `calc_cvfolds_score(config, data, n_folds, models_paths, target_metric)`
(cv.py lines 90-107).  `sklearn.model_selection.KFold(n_splits, shuffle=True)`
is an external collaborator whose shuffled index partition is passed in as
`splits`. -/
def calc_cvfolds_score {D : Type} [Inhabited D] (ev : List D → List D → List D → Rat)
    (splits : List (List Nat × List Nat)) (train valid : List D) : Rat × CVState D :=
  let all_data := train ++ valid
  let st := cvfoldsGo ev all_data splits ⟨[], [], []⟩
  (npMean st.scores, st)

/-! ## Grid-search driver and final commit (cv.py lines 117-182)

A central point of the embedding: `config = config_init.copy()` and
`config_best_model = config_init.copy()` (cv.py lines 122-124) are *shallow*
Python dict copies, so all three names share the very same nested
`['chainer']['pipe']` list and stage dict objects.  Every mutation
`config['chainer']['pipe'][j][name] = value` and every
`config_best_model['chainer']['pipe'][j][name] = value` /
`...pop(name + '_range')` therefore acts on one shared pipe.  The run state
consequently carries a single `Pipe` value, which `config_init`, `config` and
`config_best_model` all denote. -/

/-- Inner substitution loop `for i, param_value in enumerate(comb): ...`
(cv.py lines 153-155), with running index `i`. -/
def applyCombGo (chainer_items : List Nat) (param_names : List String) :
    Nat → List JAtom → Pipe → Pipe
  | _, [], pipe => pipe
  | i, v :: vs, pipe =>
    let j := chainer_items.getD i 0
    applyCombGo chainer_items param_names (i + 1) vs
      (pipe.set j (dictSet (pipe.getD j []) (param_names.getD i "") (JVal.atom v)))

/-- Write one combination's values into the (shared) pipe:
`config['chainer']['pipe'][chainer_items[i]][param_names[i]] = param_value`. -/
def applyComb (chainer_items : List Nat) (param_names : List String)
    (pipe : Pipe) (comb : List JAtom) : Pipe :=
  applyCombGo chainer_items param_names 0 comb pipe

/-- The per-combination loop `for comb in combinations: ...` (cv.py lines
151-162) for a valid `--folds` argument: mutate the shared pipe, then run one
cross-validated evaluation.  The evaluator `ev` abstracts the
`calc_loocv_score` / `calc_cvfolds_score` call, reading the mutated
configuration and the file system and returning the mean score and the file
system after the fold trainings. -/
def gridLoopGo (ev : Pipe → FS → Rat × FS) (chainer_items : List Nat)
    (param_names : List String) :
    List (List JAtom) → Pipe → FS → List Rat → Pipe × FS × List Rat
  | [], pipe, fs, scores => (pipe, fs, scores)
  | comb :: rest, pipe, fs, scores =>
    let pipe1 := applyComb chainer_items param_names pipe comb
    let r := ev pipe1 fs
    gridLoopGo ev chainer_items param_names rest pipe1 r.2 (scores ++ [r.1])

/-- `get_best_params(combinations, scores, param_names, target_metric)`
(cv.py lines 110-115): `dict(zip(param_names, combinations[np.argmax(scores)]))`
extended with the winning score under the target-metric key. -/
def get_best_params (combinations : List (List JAtom)) (scores : List Rat)
    (param_names : List String) (target_metric : String) : List (String × JAtom) :=
  let max_id := npArgmax scores
  let best_params := (param_names.zip (combinations.getD max_id [])).foldl
    (fun d kv => dictSet d kv.1 kv.2) []
  dictSet best_params target_metric (.num (scores.getD max_id 0))

/-- Final commit loop `for i, param_name in enumerate(best_params_dict.keys()):`
(cv.py lines 173-177): for every non-target key, write the winning value into
the shared pipe at stage `chainer_items[i]` and pop the range key. -/
def commitGo (chainer_items : List Nat) (target_metric : String) :
    Nat → List (String × JAtom) → Pipe → Pipe
  | _, [], pipe => pipe
  | i, (param_name, v) :: rest, pipe =>
    if param_name ≠ target_metric then
      let j := chainer_items.getD i 0
      let st := dictSet (pipe.getD j []) param_name (JVal.atom v)
      commitGo chainer_items target_metric (i + 1) rest
        (pipe.set j (dictPop st (param_name ++ PARAM_RANGE_SUFFIX_NAME)))
    else commitGo chainer_items target_metric (i + 1) rest pipe

/-- The observable outcome of one `main()` run (cv.py lines 117-182). -/
structure RunResult where
  /-- The message of the raised exception, `none` on normal completion
  (`NotImplementedError` for unsupported search type / folds value,
  `ValueError` from `np.argmax` on an empty score list). -/
  error : Option String
  /-- The file system when the run ends (normally or by the exception). -/
  fs : FS
  /-- The Cartesian product `combinations` (empty when never formed). -/
  combs : List (List JAtom)
  /-- The collected cross-validation scores. -/
  scores : List Rat
  /-- The shared pipe right after the combination loop (the pipe all of
  `config_init`, `config` and `config_best_model` see at that moment). -/
  loopPipe : Pipe
  /-- The shared pipe when the run ends. -/
  pipe : Pipe
  /-- `best_params_dict` when it was produced. -/
  bestParams : List (String × JAtom)
  /-- The pipe of the configuration written to `*_cvbest.json`, when reached. -/
  savedBest : Option Pipe

/-- `main()` (cv.py lines 117-182) from the point the configuration has been
read: parameter extraction, artifact backup, grid search, best-combination
selection, artifact delete+restore, and final commit.  `search_type` and
`folds` are the CLI arguments, `target_metric` is
`config_init['train']['metrics'][0]`, `pipe0` is the pipe of the configuration
as read from disk, and `fs0` the file system at run start.  The `--folds`
dispatch (cv.py lines 157-162) sits inside the combination loop, so an
unsupported folds value raises after the first combination has already been
written into the shared pipe. -/
def mainRun (search_type folds target_metric : String) (ev : Pipe → FS → Rat × FS)
    (pipe0 : Pipe) (fs0 : FS) : RunResult :=
  let ex := extractParams pipe0
  let fs1 := backup_saved_models ex.models_paths fs0
  if search_type = "grid" then
    let combinations := pyProduct (ex.param_values.map (fun kv => kv.2))
    let param_names := ex.param_values.map (fun kv => kv.1)
    if folds = "loo" || pyIsDigit folds then
      let st := gridLoopGo ev ex.chainer_items param_names combinations pipe0 fs1 []
      if st.2.2.isEmpty then
        -- `np.argmax` on the empty score list raises `ValueError`
        { error := some "attempt to get argmax of an empty sequence", fs := st.2.1,
          combs := combinations, scores := st.2.2, loopPipe := st.1, pipe := st.1,
          bestParams := [], savedBest := none }
      else
        let best_params_dict := get_best_params combinations st.2.2 param_names target_metric
        let fs2 := restore_saved_models ex.models_paths
          (delete_saved_model ex.models_paths st.2.1)
        let pipe2 := commitGo ex.chainer_items target_metric 0 best_params_dict st.1
        { error := none, fs := fs2, combs := combinations, scores := st.2.2,
          loopPipe := st.1, pipe := pipe2, bestParams := best_params_dict,
          savedBest := some pipe2 }
    else
      match combinations with
      | [] =>
        -- the loop body never runs; `np.argmax([])` raises `ValueError`
        { error := some "attempt to get argmax of an empty sequence", fs := fs1,
          combs := combinations, scores := [], loopPipe := pipe0, pipe := pipe0,
          bestParams := [], savedBest := none }
      | comb :: _ =>
        -- raised on the first iteration, after the combination was applied
        { error := some "Not implemented this type of CV", fs := fs1,
          combs := combinations, scores := [],
          loopPipe := applyComb ex.chainer_items param_names pipe0 comb,
          pipe := applyComb ex.chainer_items param_names pipe0 comb,
          bestParams := [], savedBest := none }
  else
    { error := some "Not implemented this type of search", fs := fs1, combs := [],
      scores := [], loopPipe := pipe0, pipe := pipe0, bestParams := [],
      savedBest := none }

/-! ## Lemmas about the artifact lifecycle operations -/

theorem backup_singleton (p : String) (fs : FS) :
    backup_saved_models [p] fs =
      if fsIsFile fs p then fsRename fs p (p ++ BACKUP_SUFFIX_FILENAME) else fs := rfl

theorem delete_singleton (p : String) (fs : FS) :
    delete_saved_model [p] fs = if fsIsFile fs p then fsRemove fs p else fs := rfl

theorem restore_singleton (p : String) (fs : FS) :
    restore_saved_models [p] fs =
      if fsIsFile fs (p ++ BACKUP_SUFFIX_FILENAME) then
        fsRename fs (p ++ BACKUP_SUFFIX_FILENAME) p
      else fs := rfl

/-- Claim C5: Backup followed by restore round-trips the artifact file state.  If a
file with content `f` existed at `P` at backup time then — whatever the fold
trainings later leave at `P` (`fsMid` is any file system that still has the
backup file where `backup_saved_models` put it) — deleting the current file at
`P` and restoring brings exactly the original file back to `P`.  If no file
existed at `P` at backup time (and the reserved backup path is free, as §6 of
the spec requires), backup followed by restore leaves `P` absent and the whole
file system unchanged — no spurious file. -/
theorem C5_backup_restore_roundtrip (P : String) (f : Nat) (fs0 fsMid : FS)
    (hb : P ++ BACKUP_SUFFIX_FILENAME ≠ P) :
    (fs0 P = some f →
      fsMid (P ++ BACKUP_SUFFIX_FILENAME) =
        backup_saved_models [P] fs0 (P ++ BACKUP_SUFFIX_FILENAME) →
      restore_saved_models [P] (delete_saved_model [P] fsMid) P = some f) ∧
    (fs0 P = none → fs0 (P ++ BACKUP_SUFFIX_FILENAME) = none →
      restore_saved_models [P] (backup_saved_models [P] fs0) P = none ∧
      ∀ q, restore_saved_models [P] (backup_saved_models [P] fs0) q = fs0 q) := by
  have hb' : P ≠ P ++ BACKUP_SUFFIX_FILENAME := fun h => hb h.symm
  constructor
  · intro h0 hmid
    have h1 : backup_saved_models [P] fs0 (P ++ BACKUP_SUFFIX_FILENAME) = some f := by
      rw [backup_singleton]
      simp [fsIsFile, h0, fsRename, hb]
    rw [← hmid] at h1
    have h2 : delete_saved_model [P] fsMid (P ++ BACKUP_SUFFIX_FILENAME) = some f := by
      rw [delete_singleton]
      by_cases hf : fsIsFile fsMid P = true
      · simp [hf, fsRemove, hb, h1]
      · simp [hf, h1]
    rw [restore_singleton]
    simp [fsIsFile, h2, fsRename, hb']
  · intro h0 hB
    have hbk : backup_saved_models [P] fs0 = fs0 := by
      rw [backup_singleton]
      simp [fsIsFile, h0]
    have hrs : restore_saved_models [P] (backup_saved_models [P] fs0) = fs0 := by
      rw [hbk, restore_singleton]
      simp [fsIsFile, hB]
    exact ⟨by rw [hrs, h0], fun q => by rw [hrs]⟩

/-- Witness for C5 at `P = "model"`: original content `7`, fold training left
content `99` at the path. -/
theorem C5_backup_restore_roundtrip_witness :
    restore_saved_models ["model"]
      (delete_saved_model ["model"]
        (fun p => if p = "model" then some 99
                  else if p = "model_backuped" then some 7 else none)) "model" = some 7 :=
  (C5_backup_restore_roundtrip "model" 7
      (fun p => if p = "model" then some 7 else none)
      (fun p => if p = "model" then some 99
                else if p = "model_backuped" then some 7 else none)
      (by decide)).1 (by decide) (by decide)

/-! ## Lemmas about the fold-evaluation loops -/

theorem loocvGo_eq {D : Type} [Inhabited D] (ev : List D → List D → List D → Rat)
    (all : List D) (idxs : List Nat) (st : CVState D) :
    loocvGo ev all idxs st =
      ⟨st.folds ++ idxs.map (fun i => (all.eraseIdx i, [all.getD i default], ([] : List D))),
       st.events ++ idxs.bind (fun _ => [.reset, .fitEval]),
       st.scores ++ idxs.map (fun i => ev (all.eraseIdx i) [all.getD i default] [])⟩ := by
  induction idxs generalizing st with
  | nil => simp [loocvGo]
  | cons i rest ih => simp [loocvGo, ih, List.append_assoc]

theorem cvfoldsGo_eq {D : Type} [Inhabited D] (ev : List D → List D → List D → Rat)
    (all : List D) (splits : List (List Nat × List Nat)) (st : CVState D) :
    cvfoldsGo ev all splits st =
      ⟨st.folds ++ splits.map (fun tv =>
          (tv.1.map (fun j => all.getD j default), tv.2.map (fun j => all.getD j default),
           ([] : List D))),
       st.events ++ splits.bind (fun _ => [.reset, .fitEval]),
       st.scores ++ splits.map (fun tv =>
          ev (tv.1.map (fun j => all.getD j default)) (tv.2.map (fun j => all.getD j default)) [])⟩ := by
  induction splits generalizing st with
  | nil => simp [cvfoldsGo]
  | cons tv rest ih =>
    obtain ⟨ti, vi⟩ := tv
    simp [cvfoldsGo, ih, List.append_assoc]

theorem eraseIdx_append_getD_perm {α : Type} [Inhabited α] (l : List α) (i : Nat)
    (h : i < l.length) : (l.eraseIdx i ++ [l.getD i default]).Perm l := by
  induction l generalizing i with
  | nil => simp at h
  | cons x xs ih =>
    cases i with
    | zero => simpa [List.eraseIdx] using List.perm_append_singleton x xs
    | succ i =>
      simp only [List.eraseIdx, List.getD_cons_succ, List.cons_append]
      exact List.Perm.cons x (ih i (by simpa using h))

/-- Claim C8: In both folding strategies the artifact reset
(`delete_saved_model(models_paths)`) runs immediately before each fold's
fit+evaluate cycle: the event trace of a run is exactly one `[reset, fitEval]`
block per fold — once per fold, for every fold, never skipped — and there is
one fold per leave-one-out index resp. per `kf.split` partition. -/
theorem C8_reset_before_every_fold {D : Type} [Inhabited D]
    (ev : List D → List D → List D → Rat) (splits : List (List Nat × List Nat))
    (train valid : List D) :
    (calc_loocv_score ev train valid).2.events =
      (List.range (train ++ valid).length).bind (fun _ => [FoldEvent.reset, FoldEvent.fitEval]) ∧
    (calc_loocv_score ev train valid).2.folds.length = (train ++ valid).length ∧
    (calc_cvfolds_score ev splits train valid).2.events =
      splits.bind (fun _ => [FoldEvent.reset, FoldEvent.fitEval]) ∧
    (calc_cvfolds_score ev splits train valid).2.folds.length = splits.length := by
  refine ⟨?_, ?_, ?_, ?_⟩ <;>
    simp [calc_loocv_score, calc_cvfolds_score, loocvGo_eq, cvfoldsGo_eq]

/-- Claim C4: Leave-one-out scoring over `all = train ++ valid` of size `m` runs
exactly `m` fit+evaluate cycles; cycle `i` validates on the singleton
`[all[i]]`, trains on `all` with index `i` removed (order preserved) and has an
empty test split; the returned score is the arithmetic mean of the `m`
per-fold target-metric values; and every fold's train and validation splits
together are a permutation (multiset equality) of `all`. -/
theorem C4_loocv_folds {D : Type} [Inhabited D] (ev : List D → List D → List D → Rat)
    (train valid : List D) :
    (calc_loocv_score ev train valid).2.folds.length = (train ++ valid).length ∧
    (calc_loocv_score ev train valid).2.scores.length = (train ++ valid).length ∧
    (∀ i, i < (train ++ valid).length →
      (calc_loocv_score ev train valid).2.folds.getD i ([], [], []) =
        ((train ++ valid).eraseIdx i, [(train ++ valid).getD i default], [])) ∧
    (calc_loocv_score ev train valid).1 =
      ((List.range (train ++ valid).length).map
        (fun i => ev ((train ++ valid).eraseIdx i) [(train ++ valid).getD i default] [])).sum /
        ((train ++ valid).length : Rat) ∧
    (∀ i, i < (train ++ valid).length →
      ((train ++ valid).eraseIdx i ++ [(train ++ valid).getD i default]).Perm (train ++ valid)) := by
  refine ⟨?_, ?_, ?_, ?_, ?_⟩
  · simp [calc_loocv_score, loocvGo_eq]
  · simp [calc_loocv_score, loocvGo_eq]
  · intro i hi
    simp only [calc_loocv_score, loocvGo_eq, List.nil_append]
    rw [List.getD_eq_getElem?_getD, List.getElem?_map, List.getElem?_range hi]
    rfl
  · simp [calc_loocv_score, loocvGo_eq, npMean]
  · intro i hi
    exact eraseIdx_append_getD_perm _ i hi

/-- Witness for C4 at `train = [10, 20]`, `valid = [30]`: the second fold
trains on `[10, 30]` and validates on `[20]`, and together they are a
permutation of `[10, 20, 30]`. -/
theorem C4_loocv_folds_witness :
    (calc_loocv_score (D := Nat) (fun _ _ _ => 1) [10, 20] [30]).2.folds.getD 1 ([], [], []) =
      ([10, 30], [20], []) ∧
    ([10, 30] ++ [20] : List Nat).Perm [10, 20, 30] := by
  have h := C4_loocv_folds (D := Nat) (fun _ _ _ => 1) [10, 20] [30]
  refine ⟨?_, ?_⟩
  · have := h.2.2.1 1 (by decide)
    simpa using this
  · have := h.2.2.2.2 1 (by decide)
    simpa using this

/-! ## Lemmas about `np.argmax` -/

/-- The index of the first element that dominates all later elements — i.e. the
first occurrence of the maximum. -/
def firstMaxIdx : List Rat → Nat
  | [] => 0
  | x :: xs => if ∀ y ∈ xs, y ≤ x then 0 else firstMaxIdx xs + 1

theorem npArgmaxAux_eq (l : List Rat) : ∀ (i bi : Nat) (bv : Rat),
    npArgmaxAux l i bi bv = if ∀ y ∈ l, y ≤ bv then bi else i + firstMaxIdx l := by
  induction l with
  | nil => intro i bi bv; simp [npArgmaxAux]
  | cons x xs ih =>
    intro i bi bv
    simp only [npArgmaxAux, firstMaxIdx, ih]
    by_cases hc : ∀ y ∈ x :: xs, y ≤ bv
    · obtain ⟨hxb, hxs⟩ := List.forall_mem_cons.mp hc
      rw [if_neg (not_lt.mpr hxb), if_pos hxs, if_pos hc]
    · by_cases hx : bv < x
      · rw [if_pos hx, if_neg hc]
        by_cases hxs : ∀ y ∈ xs, y ≤ x
        · rw [if_pos hxs, if_pos hxs]
          omega
        · rw [if_neg hxs, if_neg hxs]
          omega
      · rw [if_neg hx]
        have hxb : x ≤ bv := not_lt.mp hx
        have hxs : ¬ ∀ y ∈ xs, y ≤ bv := by
          intro hall
          exact hc (List.forall_mem_cons.mpr ⟨hxb, hall⟩)
        have hxsx : ¬ ∀ y ∈ xs, y ≤ x := by
          intro hallx
          exact hxs (fun y hy => le_trans (hallx y hy) hxb)
        rw [if_neg hxs, if_neg hc, if_neg hxsx]
        omega

theorem npArgmax_eq_firstMaxIdx (l : List Rat) : npArgmax l = firstMaxIdx l := by
  cases l with
  | nil => rfl
  | cons x xs =>
    simp only [npArgmax, npArgmaxAux_eq, firstMaxIdx]
    by_cases hxs : ∀ y ∈ xs, y ≤ x
    · rw [if_pos hxs, if_pos hxs]
    · rw [if_neg hxs, if_neg hxs]
      omega

theorem firstMaxIdx_lt_length (l : List Rat) (h : l ≠ []) : firstMaxIdx l < l.length := by
  induction l with
  | nil => exact absurd rfl h
  | cons x xs ih =>
    simp only [firstMaxIdx, List.length_cons]
    by_cases hxs : ∀ y ∈ xs, y ≤ x
    · rw [if_pos hxs]
      omega
    · have hne : xs ≠ [] := by
        intro he
        exact hxs (by simp [he])
      rw [if_neg hxs]
      exact Nat.succ_lt_succ (ih hne)

theorem firstMaxIdx_is_max (l : List Rat) :
    ∀ j, j < l.length → l.getD j 0 ≤ l.getD (firstMaxIdx l) 0 := by
  induction l with
  | nil => intro j hj; simp at hj
  | cons x xs ih =>
    intro j hj
    by_cases hxs : ∀ y ∈ xs, y ≤ x
    · simp only [firstMaxIdx, if_pos hxs, List.getD_cons_zero]
      cases j with
      | zero => simp
      | succ j =>
        have hj' : j < xs.length := by simpa using hj
        simp only [List.getD_cons_succ]
        rw [List.getD_eq_getElem xs 0 hj']
        exact hxs _ (List.getElem_mem hj')
    · simp only [firstMaxIdx, if_neg hxs, List.getD_cons_succ]
      cases j with
      | zero =>
        simp only [List.getD_cons_zero]
        push_neg at hxs
        obtain ⟨y, hy, hxy⟩ := hxs
        obtain ⟨k, hk, hky⟩ := List.mem_iff_getElem.mp hy
        have h1 : xs.getD k 0 ≤ xs.getD (firstMaxIdx xs) 0 := ih k hk
        rw [List.getD_eq_getElem xs 0 hk, hky] at h1
        exact le_of_lt (lt_of_lt_of_le hxy h1)
      | succ j =>
        have hj' : j < xs.length := by simpa using hj
        simp only [List.getD_cons_succ]
        exact ih j hj'

theorem firstMaxIdx_first (l : List Rat) :
    ∀ j, j < firstMaxIdx l → l.getD j 0 < l.getD (firstMaxIdx l) 0 := by
  induction l with
  | nil => intro j hj; simp [firstMaxIdx] at hj
  | cons x xs ih =>
    intro j hj
    by_cases hxs : ∀ y ∈ xs, y ≤ x
    · rw [firstMaxIdx, if_pos hxs] at hj
      omega
    · rw [firstMaxIdx, if_neg hxs] at hj ⊢
      simp only [List.getD_cons_succ]
      cases j with
      | zero =>
        simp only [List.getD_cons_zero]
        push_neg at hxs
        obtain ⟨y, hy, hxy⟩ := hxs
        obtain ⟨k, hk, hky⟩ := List.mem_iff_getElem.mp hy
        have h1 : xs.getD k 0 ≤ xs.getD (firstMaxIdx xs) 0 := firstMaxIdx_is_max xs k hk
        rw [List.getD_eq_getElem xs 0 hk, hky] at h1
        exact lt_of_lt_of_le hxy h1
      | succ j =>
        simp only [List.getD_cons_succ]
        exact ih j (by omega)

/-- Claim C7: Best-combination selection is argmax with first-maximum tie-break:
`npArgmax` returns a valid index whose score is maximal, every strictly earlier
index has a strictly smaller score (so the winner is the earliest combination
achieving the maximum); combinations are enumerated in standard Cartesian
product order with the last axis varying fastest; and in the concrete tie
scenario with scores `[0.9, 0.85, 0.9]`, `get_best_params` selects
combination 0. -/
theorem C7_argmax_first_max_tiebreak (scores : List Rat) (h : scores ≠ []) :
    npArgmax scores < scores.length ∧
    (∀ j, j < scores.length → scores.getD j 0 ≤ scores.getD (npArgmax scores) 0) ∧
    (∀ j, j < npArgmax scores → scores.getD j 0 < scores.getD (npArgmax scores) 0) ∧
    pyProduct [[JAtom.num 1, JAtom.num 2], [JAtom.num 3, JAtom.num 4]] =
      [[JAtom.num 1, JAtom.num 3], [JAtom.num 1, JAtom.num 4],
       [JAtom.num 2, JAtom.num 3], [JAtom.num 2, JAtom.num 4]] ∧
    get_best_params [[JAtom.num 1], [JAtom.num 2], [JAtom.num 3]]
        [9/10, 85/100, 9/10] ["lr"] "acc" =
      [("lr", JAtom.num 1), ("acc", JAtom.num (9/10))] := by
  rw [npArgmax_eq_firstMaxIdx]
  refine ⟨firstMaxIdx_lt_length scores h, firstMaxIdx_is_max scores,
    firstMaxIdx_first scores, by decide, ?_⟩
  norm_num [get_best_params, npArgmax, npArgmaxAux, dictSet, List.getD]
  decide

/-- Witness for C7 at the tie scenario `[0.9, 0.85, 0.9]`: the selected index
is valid and its score is maximal. -/
theorem C7_argmax_first_max_tiebreak_witness :
    npArgmax [9/10, 85/100, 9/10] < 3 ∧
    (∀ j, j < 3 →
      [(9 : Rat)/10, 85/100, 9/10].getD j 0 ≤
        [(9 : Rat)/10, 85/100, 9/10].getD (npArgmax [9/10, 85/100, 9/10]) 0) := by
  have h := C7_argmax_first_max_tiebreak [9/10, 85/100, 9/10] (by simp)
  exact ⟨h.1, h.2.1⟩

/-! ## Lemmas about the grid-search driver -/

theorem pyProduct_length {α : Type} (ls : List (List α)) :
    (pyProduct ls).length = (ls.map List.length).prod := by
  induction ls with
  | nil => rfl
  | cons xs rest ih =>
    simp [pyProduct, List.length_bind, ih, Function.comp]
    induction xs with
    | nil => simp
    | cons x xs ihx =>
      simp [ihx, ih, Nat.succ_mul]
      omega

theorem gridLoopGo_scores_length (ev : Pipe → FS → Rat × FS) (ci : List Nat)
    (pn : List String) (combs : List (List JAtom)) :
    ∀ (pipe : Pipe) (fs : FS) (scores : List Rat),
    (gridLoopGo ev ci pn combs pipe fs scores).2.2.length = scores.length + combs.length := by
  induction combs with
  | nil => intro pipe fs scores; simp [gridLoopGo]
  | cons c rest ih =>
    intro pipe fs scores
    simp [gridLoopGo, ih]
    omega

/-- For a `grid` run with a valid `--folds` value, the combination list is the
Cartesian product of the extracted candidate lists and the score list is the
one collected by the combination loop. -/
theorem mainRun_grid_fields (folds target : String) (ev : Pipe → FS → Rat × FS)
    (pipe0 : Pipe) (fs0 : FS) (hf : (folds = "loo" || pyIsDigit folds) = true) :
    (mainRun "grid" folds target ev pipe0 fs0).combs =
      pyProduct ((extractParams pipe0).param_values.map (fun kv => kv.2)) ∧
    (mainRun "grid" folds target ev pipe0 fs0).scores =
      (gridLoopGo ev (extractParams pipe0).chainer_items
        ((extractParams pipe0).param_values.map (fun kv => kv.1))
        (pyProduct ((extractParams pipe0).param_values.map (fun kv => kv.2)))
        pipe0 (backup_saved_models (extractParams pipe0).models_paths fs0) []).2.2 := by
  unfold mainRun
  rw [if_pos rfl, if_pos hf]
  dsimp only
  split <;> exact ⟨rfl, rfl⟩

/-- Claim C6: For every non-empty search space with candidate-list sizes
`s_1 .. s_n`, the grid search enumerates exactly `s_1 * ... * s_n`
combinations (the full Cartesian product, in enumeration order) and collects
exactly one score per combination: both the combination list and the score
table have length `∏ s_i`. -/
theorem C6_grid_exhaustive (folds target : String) (ev : Pipe → FS → Rat × FS)
    (pipe0 : Pipe) (fs0 : FS)
    (hax : (extractParams pipe0).param_values ≠ [])
    (hf : (folds = "loo" || pyIsDigit folds) = true) :
    (mainRun "grid" folds target ev pipe0 fs0).combs.length =
      ((extractParams pipe0).param_values.map (fun kv => kv.2.length)).prod ∧
    (mainRun "grid" folds target ev pipe0 fs0).scores.length =
      ((extractParams pipe0).param_values.map (fun kv => kv.2.length)).prod := by
  obtain ⟨hc, hs⟩ := mainRun_grid_fields folds target ev pipe0 fs0 hf
  have hlen : (pyProduct ((extractParams pipe0).param_values.map (fun kv => kv.2))).length =
      ((extractParams pipe0).param_values.map (fun kv => kv.2.length)).prod := by
    rw [pyProduct_length, List.map_map]
    rfl
  constructor
  · rw [hc, hlen]
  · rw [hs, gridLoopGo_scores_length, hlen]
    simp

/-- Witness for C6: a configuration with two axes of sizes 2 and 3 yields
exactly 6 combinations and 6 scores. -/
theorem C6_grid_exhaustive_witness :
    (mainRun "grid" "2" "acc" (fun _ fs => (1, fs))
      [[("a_range", JVal.arr [.num 1, .num 2])],
       [("b_range", JVal.arr [.num 3, .num 4, .num 5])]]
      (fun _ => none)).combs.length = 6 ∧
    (mainRun "grid" "2" "acc" (fun _ fs => (1, fs))
      [[("a_range", JVal.arr [.num 1, .num 2])],
       [("b_range", JVal.arr [.num 3, .num 4, .num 5])]]
      (fun _ => none)).scores.length = 6 := by
  have h := C6_grid_exhaustive "2" "acc" (fun _ fs => (1, fs))
    [[("a_range", JVal.arr [.num 1, .num 2])],
     [("b_range", JVal.arr [.num 3, .num 4, .num 5])]]
    (fun _ => none) (by decide) (by decide)
  obtain ⟨h1, h2⟩ := h
  constructor
  · rw [h1]; decide
  · rw [h2]; decide

/-! ## Concrete configurations used by counterexamples and witnesses -/

/-- A one-stage configuration: the stage is trainable (`in_y`), saves to
`"model"`, and has one search axis `lr_range` with candidates `[1, 2]`. -/
def onePipe : Pipe :=
  [[("in_y", jstr "y"), (SAVE_PATH_ELEMENT_NAME, jstr "model"),
    ("lr_range", JVal.arr [.num 1, .num 2])]]

/-- A file system holding one artifact: content `7` at path `"model"`. -/
def oneFs : FS := fun p => if p = "model" then some 7 else none

/-- An evaluator returning the constant score `r` and leaving the file system
unchanged. -/
def constEval (r : Rat) : Pipe → FS → Rat × FS := fun _ fs => (r, fs)

/-! ## C1: restore on exit paths -/

/-- Claim C1, counterexample: The claim says restore runs on *every* exit path
after backup.  It does not: a run with the unsupported `--folds` value `"bad"`
backs the artifact up (`"model"` is renamed to `"model_backuped"`), then raises
`NotImplementedError` inside the combination loop, and the raise skips the
`delete_saved_model` / `restore_saved_models` calls — the final file system has
no file at `"model"` and the backup still at `"model_backuped"`, a
half-backed-up state.  (The unsupported `search_type` path raises before the
loop with the same effect.) -/
theorem C1_counterexample_abort_skips_restore :
    (mainRun "grid" "bad" "acc" (constEval 1) onePipe oneFs).error =
      some "Not implemented this type of CV" ∧
    (mainRun "grid" "bad" "acc" (constEval 1) onePipe oneFs).fs "model" = none ∧
    (mainRun "grid" "bad" "acc" (constEval 1) onePipe oneFs).fs
      ("model" ++ BACKUP_SUFFIX_FILENAME) = some 7 ∧
    (mainRun "random" "2" "acc" (constEval 1) onePipe oneFs).error =
      some "Not implemented this type of search" ∧
    (mainRun "random" "2" "acc" (constEval 1) onePipe oneFs).fs "model" = none := by
  decide

/-- The combination loop never touches the backup file, provided the evaluator
(the fold trainings) does not touch it either. -/
theorem gridLoopGo_fs_preserves (ev : Pipe → FS → Rat × FS) (ci : List Nat)
    (pn : List String) (q : String)
    (hev : ∀ pipe fs, (ev pipe fs).2 q = fs q) (combs : List (List JAtom)) :
    ∀ (pipe : Pipe) (fs : FS) (scores : List Rat),
    (gridLoopGo ev ci pn combs pipe fs scores).2.1 q = fs q := by
  induction combs with
  | nil => intro pipe fs scores; rfl
  | cons c rest ih =>
    intro pipe fs scores
    rw [gridLoopGo, ih, hev]

/-- On a normal completion of a `grid` run, the final file system is the one
produced by `delete_saved_model` followed by `restore_saved_models` on the file
system left by the combination loop (cv.py lines 169-170). -/
theorem mainRun_grid_normal_fs (folds target : String) (ev : Pipe → FS → Rat × FS)
    (pipe0 : Pipe) (fs0 : FS) (hf : (folds = "loo" || pyIsDigit folds) = true)
    (herr : (mainRun "grid" folds target ev pipe0 fs0).error = none) :
    (mainRun "grid" folds target ev pipe0 fs0).fs =
      restore_saved_models (extractParams pipe0).models_paths
        (delete_saved_model (extractParams pipe0).models_paths
          (gridLoopGo ev (extractParams pipe0).chainer_items
            ((extractParams pipe0).param_values.map (fun kv => kv.1))
            (pyProduct ((extractParams pipe0).param_values.map (fun kv => kv.2)))
            pipe0 (backup_saved_models (extractParams pipe0).models_paths fs0) []).2.1) := by
  revert herr
  unfold mainRun
  rw [if_pos rfl, if_pos hf]
  dsimp only
  split
  · intro herr; simp at herr
  · intro _; rfl

/-- Claim C1, amended: Restore is guaranteed only on the *normal-completion* exit
path: when a `grid` run with a valid `--folds` value finishes without raising,
an artifact that existed at path `P` at backup time is back at `P` at the end
(the fold trainings may do anything to `P`; they do not touch the reserved
backup path).  On abort paths (unsupported `search_type` or `--folds` value,
or an evaluation error) the raise skips restore and the backup stays in place
— see the counterexample. -/
theorem C1_restore_on_normal_exit (folds target P : String) (f : Nat)
    (ev : Pipe → FS → Rat × FS) (pipe0 : Pipe) (fs0 : FS)
    (hf : (folds = "loo" || pyIsDigit folds) = true)
    (hmp : (extractParams pipe0).models_paths = [P])
    (h0 : fs0 P = some f)
    (hb : P ++ BACKUP_SUFFIX_FILENAME ≠ P)
    (hev : ∀ pipe fs, (ev pipe fs).2 (P ++ BACKUP_SUFFIX_FILENAME) =
      fs (P ++ BACKUP_SUFFIX_FILENAME))
    (herr : (mainRun "grid" folds target ev pipe0 fs0).error = none) :
    (mainRun "grid" folds target ev pipe0 fs0).fs P = some f := by
  rw [mainRun_grid_normal_fs folds target ev pipe0 fs0 hf herr, hmp]
  have hbackup : backup_saved_models [P] fs0 (P ++ BACKUP_SUFFIX_FILENAME) = some f := by
    rw [backup_singleton]
    simp [fsIsFile, h0, fsRename, hb]
  have hloop : (gridLoopGo ev (extractParams pipe0).chainer_items
      ((extractParams pipe0).param_values.map (fun kv => kv.1))
      (pyProduct ((extractParams pipe0).param_values.map (fun kv => kv.2)))
      pipe0 (backup_saved_models [P] fs0) []).2.1 (P ++ BACKUP_SUFFIX_FILENAME) = some f := by
    rw [gridLoopGo_fs_preserves _ _ _ _ hev, hbackup]
  have hdel : delete_saved_model [P]
      (gridLoopGo ev (extractParams pipe0).chainer_items
        ((extractParams pipe0).param_values.map (fun kv => kv.1))
        (pyProduct ((extractParams pipe0).param_values.map (fun kv => kv.2)))
        pipe0 (backup_saved_models [P] fs0) []).2.1 (P ++ BACKUP_SUFFIX_FILENAME) = some f := by
    rw [delete_singleton]
    split
    · simp only [fsRemove]
      rw [if_neg hb, hloop]
    · exact hloop
  rw [restore_singleton]
  simp only [fsIsFile, hdel, Option.isSome_some, if_true, fsRename]
  rw [if_neg (fun h => hb h.symm)]

/-- Witness for C1 (amended): the normal run on the one-axis configuration
restores the artifact content `7` at `"model"`. -/
theorem C1_restore_on_normal_exit_witness :
    (mainRun "grid" "2" "acc" (constEval 1) onePipe oneFs).fs "model" = some 7 :=
  C1_restore_on_normal_exit "2" "acc" "model" 7 (constEval 1) onePipe oneFs
    (by decide) (by decide) (by decide) (by decide) (fun _ _ => rfl) (by decide)

/-! ## C9: empty search space -/

/-- A configuration with a trainable stage but no `*_range` key anywhere. -/
def noAxesPipe : Pipe := [[("in_y", jstr "y"), (SAVE_PATH_ELEMENT_NAME, jstr "m")]]

/-- Claim C9, counterexample: The claim says that with no search axes the run is
a configuration error with no fold evaluation and no best result.  In fact
`itertools.product()` of zero candidate lists yields the single empty tuple, so
the loop runs once: no error is raised, exactly one full cross-validated
evaluation is performed (on the unmodified configuration), and a best-model
configuration file is still produced. -/
theorem C9_counterexample_no_axes_still_runs :
    (mainRun "grid" "3" "acc" (constEval 1) noAxesPipe oneFs).error = none ∧
    (mainRun "grid" "3" "acc" (constEval 1) noAxesPipe oneFs).scores.length = 1 ∧
    (mainRun "grid" "3" "acc" (constEval 1) noAxesPipe oneFs).savedBest = some noAxesPipe := by
  decide

/-- Claim C9, amended: If the extracted search space contains no axes, the grid
search does not fail: the Cartesian product of zero lists is the one-element
list containing the empty combination, so exactly one fold evaluation runs on
the unmodified configuration, and the best-configuration file is written with
the pipe unchanged. -/
theorem C9_no_axes_single_evaluation (folds target : String) (ev : Pipe → FS → Rat × FS)
    (pipe0 : Pipe) (fs0 : FS)
    (hax : (extractParams pipe0).param_values = [])
    (hf : (folds = "loo" || pyIsDigit folds) = true) :
    (mainRun "grid" folds target ev pipe0 fs0).error = none ∧
    (mainRun "grid" folds target ev pipe0 fs0).scores.length = 1 ∧
    (mainRun "grid" folds target ev pipe0 fs0).loopPipe = pipe0 ∧
    (mainRun "grid" folds target ev pipe0 fs0).savedBest = some pipe0 := by
  unfold mainRun
  rw [if_pos rfl, if_pos hf, hax]
  dsimp only
  simp [pyProduct, gridLoopGo, applyComb, applyCombGo, get_best_params, commitGo,
    npArgmax, npArgmaxAux, dictSet]

/-- Witness for C9 (amended) at the concrete no-axes configuration. -/
theorem C9_no_axes_single_evaluation_witness :
    (mainRun "grid" "5" "f1" (constEval 2) noAxesPipe oneFs).error = none ∧
    (mainRun "grid" "5" "f1" (constEval 2) noAxesPipe oneFs).scores.length = 1 ∧
    (mainRun "grid" "5" "f1" (constEval 2) noAxesPipe oneFs).loopPipe = noAxesPipe ∧
    (mainRun "grid" "5" "f1" (constEval 2) noAxesPipe oneFs).savedBest = some noAxesPipe :=
  C9_no_axes_single_evaluation "5" "f1" (constEval 2) noAxesPipe oneFs (by decide) (by decide)

/-! ## Dict and pipe update lemmas -/

theorem dictGet_dictSet_self {β : Type} (d : List (String × β)) (k : String) (v : β) :
    dictGet (dictSet d k v) k = some v := by
  induction d with
  | nil => simp [dictGet, dictSet]
  | cons kv rest ih =>
    obtain ⟨k', v'⟩ := kv
    by_cases h : k' = k
    · simp [dictGet, dictSet, h]
    · simp [dictGet, dictSet, h, ih]

theorem dictGet_dictSet_ne {β : Type} (d : List (String × β)) (k nm : String) (v : β)
    (h : k ≠ nm) : dictGet (dictSet d k v) nm = dictGet d nm := by
  induction d with
  | nil => simp [dictGet, dictSet, h]
  | cons kv rest ih =>
    obtain ⟨k', v'⟩ := kv
    by_cases hk : k' = k
    · subst hk
      simp [dictGet, dictSet, h]
    · simp [dictGet, dictSet, hk, ih]

theorem dictGet_dictPop_ne {β : Type} (d : List (String × β)) (k nm : String)
    (h : k ≠ nm) : dictGet (dictPop d k) nm = dictGet d nm := by
  induction d with
  | nil => simp [dictPop]
  | cons kv rest ih =>
    obtain ⟨k', v'⟩ := kv
    by_cases hk : k' = k
    · subst hk
      simp [dictGet, dictPop, h]
    · simp [dictGet, dictPop, hk, ih]

theorem dictGet_none_of_not_mem_keys {β : Type} (d : List (String × β)) (k : String)
    (h : k ∉ d.map Prod.fst) : dictGet d k = none := by
  induction d with
  | nil => rfl
  | cons kv rest ih =>
    obtain ⟨k', v'⟩ := kv
    simp only [List.map_cons, List.mem_cons, not_or] at h
    have hk : ¬ k' = k := fun he => h.1 he.symm
    simp only [dictGet, if_neg hk]
    exact ih h.2

theorem map_fst_dictPop {β : Type} (d : List (String × β)) (k : String) :
    (dictPop d k).map Prod.fst = (d.map Prod.fst).erase k := by
  induction d with
  | nil => simp [dictPop]
  | cons kv rest ih =>
    obtain ⟨k', v'⟩ := kv
    by_cases hk : k' = k
    · subst hk
      simp [dictPop]
    · simp [dictPop, hk, List.erase_cons_tail, ih]

theorem dictGet_dictPop_self {β : Type} (d : List (String × β)) (k : String)
    (hnod : (d.map Prod.fst).Nodup) : dictGet (dictPop d k) k = none := by
  apply dictGet_none_of_not_mem_keys
  rw [map_fst_dictPop]
  exact hnod.not_mem_erase

theorem map_fst_dictSet {β : Type} (d : List (String × β)) (k : String) (v : β) :
    (dictSet d k v).map Prod.fst =
      if k ∈ d.map Prod.fst then d.map Prod.fst else d.map Prod.fst ++ [k] := by
  induction d with
  | nil => simp [dictSet]
  | cons kv rest ih =>
    obtain ⟨k', v'⟩ := kv
    by_cases hk : k' = k
    · subst hk
      simp [dictSet]
    · have hk2 : ¬ k = k' := fun he => hk he.symm
      simp only [dictSet, if_neg hk, List.map_cons, ih, List.mem_cons]
      by_cases hm : k ∈ rest.map Prod.fst
      · simp [hm, hk2]
      · simp [hm, hk2]

theorem keysNodup_dictSet {β : Type} (d : List (String × β)) (k : String) (v : β)
    (hnod : (d.map Prod.fst).Nodup) : ((dictSet d k v).map Prod.fst).Nodup := by
  rw [map_fst_dictSet]
  by_cases hm : k ∈ d.map Prod.fst
  · simpa [hm] using hnod
  · simp only [hm, if_false]
    rw [List.nodup_append]
    refine ⟨hnod, List.nodup_singleton _, fun a ha hb => ?_⟩
    rw [List.mem_singleton] at hb
    exact hm (hb ▸ ha)

theorem keysNodup_dictPop {β : Type} (d : List (String × β)) (k : String)
    (hnod : (d.map Prod.fst).Nodup) : ((dictPop d k).map Prod.fst).Nodup := by
  rw [map_fst_dictPop]
  exact hnod.erase k

theorem string_data_inj {s t : String} (h : s.data = t.data) : s = t := by
  cases s; cases t; exact congrArg String.mk h

theorem string_ne_append_range (s : String) : s ≠ s ++ PARAM_RANGE_SUFFIX_NAME := by
  intro h
  have hd := congrArg String.data h
  rw [String.data_append] at hd
  have hlen := congrArg List.length hd
  rw [List.length_append] at hlen
  have h6 : PARAM_RANGE_SUFFIX_NAME.data.length = 6 := by decide
  omega

theorem string_append_range_inj {s t : String}
    (h : s ++ PARAM_RANGE_SUFFIX_NAME = t ++ PARAM_RANGE_SUFFIX_NAME) : s = t := by
  have hd := congrArg String.data h
  rw [String.data_append, String.data_append] at hd
  exact string_data_inj (List.append_cancel_right hd)

theorem list_set_oob {α : Type} (l : List α) (j : Nat) (a : α) (h : l.length ≤ j) :
    l.set j a = l := by
  induction l generalizing j with
  | nil => rfl
  | cons x xs ih =>
    cases j with
    | zero => simp at h
    | succ j =>
      simp only [List.set]
      rw [ih j (by simpa using h)]

theorem pipe_getD_set_self (pipe : Pipe) (j : Nat) (st : Stage) (h : j < pipe.length) :
    (pipe.set j st).getD j [] = st := by
  rw [List.getD_eq_getElem?_getD, List.getElem?_set_eq_of_lt _ h]
  rfl

theorem pipe_getD_set_ne (pipe : Pipe) (j c : Nat) (st : Stage) (h : j ≠ c) :
    (pipe.set j st).getD c [] = pipe.getD c [] := by
  rw [List.getD_eq_getElem?_getD, List.getElem?_set_ne h, ← List.getD_eq_getElem?_getD]

/-! ## The substitution loop: write and preservation lemmas (cv.py lines 153-155) -/

theorem applyCombGo_length (ci : List Nat) (pn : List String) :
    ∀ (vs : List JAtom) (i : Nat) (pipe : Pipe),
    (applyCombGo ci pn i vs pipe).length = pipe.length := by
  intro vs
  induction vs with
  | nil => intro i pipe; rfl
  | cons v rest ih =>
    intro i pipe
    rw [applyCombGo, ih]
    simp

theorem applyCombGo_preserve (ci : List Nat) (pn : List String) :
    ∀ (vs : List JAtom) (i : Nat) (pipe : Pipe) (c : Nat) (nm : String),
    (∀ k, k < vs.length → ¬(ci.getD (i + k) 0 = c ∧ pn.getD (i + k) "" = nm)) →
    dictGet ((applyCombGo ci pn i vs pipe).getD c []) nm = dictGet (pipe.getD c []) nm := by
  intro vs
  induction vs with
  | nil => intro i pipe c nm _; rfl
  | cons v rest ih =>
    intro i pipe c nm h
    rw [applyCombGo]
    have hrec := ih (i + 1)
      (pipe.set (ci.getD i 0)
        (dictSet (pipe.getD (ci.getD i 0) []) (pn.getD i "") (JVal.atom v))) c nm
      (fun k hk => by
        have hk1 := h (k + 1) (by simpa using Nat.succ_lt_succ hk)
        have heq : i + (k + 1) = i + 1 + k := by omega
        rwa [heq] at hk1)
    rw [hrec]
    have h0 := h 0 (by simp)
    simp only [Nat.add_zero] at h0
    by_cases hc : ci.getD i 0 = c
    · have hnm : pn.getD i "" ≠ nm := fun he => h0 ⟨hc, he⟩
      subst hc
      by_cases hj : ci.getD i 0 < pipe.length
      · rw [pipe_getD_set_self _ _ _ hj, dictGet_dictSet_ne _ _ _ _ hnm]
      · rw [list_set_oob _ _ _ (by omega)]
    · rw [pipe_getD_set_ne _ _ _ _ hc]

theorem applyCombGo_write (ci : List Nat) (pn : List String) :
    ∀ (vs : List JAtom) (i : Nat) (pipe : Pipe) (j : Nat) (hj : j < vs.length),
    ci.getD (i + j) 0 < pipe.length →
    (∀ k, j < k → k < vs.length →
      ¬(ci.getD (i + k) 0 = ci.getD (i + j) 0 ∧ pn.getD (i + k) "" = pn.getD (i + j) "")) →
    dictGet ((applyCombGo ci pn i vs pipe).getD (ci.getD (i + j) 0) []) (pn.getD (i + j) "") =
      some (JVal.atom (vs.get ⟨j, hj⟩)) := by
  intro vs
  induction vs with
  | nil => intro i pipe j hj; simp at hj
  | cons v rest ih =>
    intro i pipe j hj hbound hcol
    rw [applyCombGo]
    cases j with
    | zero =>
      simp only [Nat.add_zero] at hbound hcol ⊢
      rw [applyCombGo_preserve ci pn rest (i + 1) _ _ _
        (fun k hk => by
          have := hcol (k + 1) (Nat.succ_pos k) (by simpa using Nat.succ_lt_succ hk)
          have heq : i + (k + 1) = i + 1 + k := by omega
          rwa [heq] at this)]
      rw [pipe_getD_set_self _ _ _ hbound, dictGet_dictSet_self]
      rfl
    | succ j =>
      have heq : i + (j + 1) = i + 1 + j := by omega
      rw [heq] at hbound hcol ⊢
      have hrec := ih (i + 1)
        (pipe.set (ci.getD i 0)
          (dictSet (pipe.getD (ci.getD i 0) []) (pn.getD i "") (JVal.atom v)))
        j (by simpa using hj)
        (by simpa using hbound)
        (fun k hk1 hk2 => by
          have := hcol (k + 1) (by omega) (by simpa using Nat.succ_lt_succ hk2)
          have heq2 : i + (k + 1) = i + 1 + k := by omega
          rwa [heq2] at this)
      rw [hrec]
      rfl

/-! ## The combination loop's final pipe (cv.py lines 151-160) -/

theorem gridLoopGo_pipe_length (ev : Pipe → FS → Rat × FS) (ci : List Nat)
    (pn : List String) :
    ∀ (combs : List (List JAtom)) (pipe : Pipe) (fs : FS) (sc : List Rat),
    (gridLoopGo ev ci pn combs pipe fs sc).1.length = pipe.length := by
  intro combs
  induction combs with
  | nil => intro pipe fs sc; rfl
  | cons c rest ih =>
    intro pipe fs sc
    rw [gridLoopGo, ih, applyComb, applyCombGo_length]

theorem gridLoopGo_pipe_last (ev : Pipe → FS → Rat × FS) (ci : List Nat)
    (pn : List String) :
    ∀ (combs : List (List JAtom)) (pipe : Pipe) (fs : FS) (sc : List Rat)
    (h : combs ≠ []), ∃ p : Pipe, p.length = pipe.length ∧
      (gridLoopGo ev ci pn combs pipe fs sc).1 = applyComb ci pn p (combs.getLast h) := by
  intro combs
  induction combs with
  | nil => intro pipe fs sc h; exact absurd rfl h
  | cons c rest ih =>
    intro pipe fs sc h
    cases rest with
    | nil => exact ⟨pipe, rfl, rfl⟩
    | cons c2 rest2 =>
      obtain ⟨p, hlen, heq⟩ := ih (applyComb ci pn pipe c) (ev (applyComb ci pn pipe c) fs).2
        (sc ++ [(ev (applyComb ci pn pipe c) fs).1]) (by simp)
      refine ⟨p, ?_, ?_⟩
      · rw [hlen, applyComb, applyCombGo_length]
      · rw [gridLoopGo, heq]
        simp [List.getLast_cons]

/-! ## C2: the combination loop and the base configuration -/

/-- Claim C2, counterexample: The claim says the base configuration read at start
is unchanged after the search loop.  It is not: `config = config_init.copy()`
is a shallow dict copy, so the loop's writes land in the very stage dicts of
`config_init`.  After the loop over the one-axis configuration the shared pipe
— the pipe `config_init` sees — has gained the stripped key `"lr"` with the
last combination's value `2`. -/
theorem C2_counterexample_base_config_mutated :
    (mainRun "grid" "2" "acc" (constEval 1) onePipe oneFs).loopPipe ≠ onePipe ∧
    dictGet ((mainRun "grid" "2" "acc" (constEval 1) onePipe oneFs).loopPipe.getD 0 [])
      "lr" = some (jnum 2) ∧
    dictGet (onePipe.getD 0 []) "lr" = none := by
  decide

/-- Claim C2, amended: Every grid-search iteration writes the combination's
parameter values into the stage dicts *shared with the original configuration*
(the copies at cv.py lines 123-124 are shallow), so after the loop over all
combinations the base configuration is not unchanged: each axis location
`(chainer_items[j], param_names[j])` of the shared pipe holds the *last*
combination's value for axis `j`. -/
theorem C2_loop_writes_last_combination (ev : Pipe → FS → Rat × FS) (ci : List Nat)
    (pn : List String) (combs : List (List JAtom)) (pipe : Pipe) (fs : FS)
    (hne : combs ≠ [])
    (hbound : ∀ j, j < (combs.getLast hne).length → ci.getD j 0 < pipe.length)
    (hcol : ∀ j k, j < k → k < (combs.getLast hne).length →
      ¬(ci.getD k 0 = ci.getD j 0 ∧ pn.getD k "" = pn.getD j "")) :
    ∀ j (hj : j < (combs.getLast hne).length),
    dictGet ((gridLoopGo ev ci pn combs pipe fs []).1.getD (ci.getD j 0) [])
        (pn.getD j "") = some (JVal.atom ((combs.getLast hne).get ⟨j, hj⟩)) := by
  intro j hj
  obtain ⟨p, hlen, heq⟩ := gridLoopGo_pipe_last ev ci pn combs pipe fs [] hne
  rw [heq, applyComb]
  have hw := applyCombGo_write ci pn (combs.getLast hne) 0 p j hj
    (by rw [Nat.zero_add, hlen]; exact hbound j hj)
    (fun k hk1 hk2 => by
      rw [Nat.zero_add, Nat.zero_add]
      exact hcol j k hk1 hk2)
  rwa [Nat.zero_add] at hw

/-- Witness for C2 (amended): after the loop over combinations `[[1], [2]]` the
shared pipe's stage 0 holds `lr = 2`, the last combination's value. -/
theorem C2_loop_writes_last_combination_witness :
    dictGet ((gridLoopGo (constEval 1) [0] ["lr"] [[JAtom.num 1], [JAtom.num 2]]
        onePipe oneFs []).1.getD 0 []) "lr" = some (jnum 2) := by
  have h := C2_loop_writes_last_combination (constEval 1) [0] ["lr"]
    [[JAtom.num 1], [JAtom.num 2]] onePipe oneFs (by simp)
    (by
      intro j hj
      have hj1 : j < 1 := hj
      obtain rfl : j = 0 := by omega
      decide)
    (by
      intro j k hjk hk
      have hk1 : k < 1 := hk
      exact absurd hk1 (by omega))
    0 (by decide)
  exact h

/-! ## The commit loop: write and preservation lemmas (cv.py lines 173-177) -/

/-- All stage dicts of the pipe have pairwise distinct keys (true of any dict
tree parsed from JSON). -/
def pipeKeysNodup (pipe : Pipe) : Prop :=
  ∀ st ∈ pipe, (st.map Prod.fst).Nodup

theorem pipeKeysNodup_set (pipe : Pipe) (j : Nat) (st : Stage)
    (h : pipeKeysNodup pipe) (hst : (st.map Prod.fst).Nodup) :
    pipeKeysNodup (pipe.set j st) := by
  intro st2 hmem
  rcases List.mem_or_eq_of_mem_set hmem with h2 | h2
  · exact h st2 h2
  · exact h2 ▸ hst

theorem pipe_getD_mem (pipe : Pipe) (j : Nat) (h : j < pipe.length) :
    pipe.getD j [] ∈ pipe := by
  rw [List.getD_eq_getElem _ _ h]
  exact List.getElem_mem h

theorem commitGo_preserve (ci : List Nat) (target : String) :
    ∀ (best : List (String × JAtom)) (i : Nat) (pipe : Pipe) (c : Nat) (nm : String),
    (∀ k (hk : k < best.length), (best.get ⟨k, hk⟩).1 ≠ target →
      ¬(ci.getD (i + k) 0 = c ∧
        ((best.get ⟨k, hk⟩).1 = nm ∨
         (best.get ⟨k, hk⟩).1 ++ PARAM_RANGE_SUFFIX_NAME = nm))) →
    dictGet ((commitGo ci target i best pipe).getD c []) nm = dictGet (pipe.getD c []) nm := by
  intro best
  induction best with
  | nil => intro i pipe c nm _; rfl
  | cons kv rest ih =>
    obtain ⟨name, v⟩ := kv
    intro i pipe c nm h
    rw [commitGo]
    by_cases hname : name ≠ target
    · rw [if_pos hname]
      have hrec := ih (i + 1)
        (pipe.set (ci.getD i 0)
          (dictPop (dictSet (pipe.getD (ci.getD i 0) []) name (JVal.atom v))
            (name ++ PARAM_RANGE_SUFFIX_NAME))) c nm
        (fun k hk hkt => by
          have := h (k + 1) (by simpa using Nat.succ_lt_succ hk) hkt
          have heq : i + (k + 1) = i + 1 + k := by omega
          rwa [heq] at this)
      rw [hrec]
      have h0 := h 0 (by simp) hname
      simp only [Nat.add_zero, List.get] at h0
      by_cases hc : ci.getD i 0 = c
      · have hnm1 : name ≠ nm := fun he => h0 ⟨hc, Or.inl he⟩
        have hnm2 : name ++ PARAM_RANGE_SUFFIX_NAME ≠ nm := fun he => h0 ⟨hc, Or.inr he⟩
        subst hc
        by_cases hj : ci.getD i 0 < pipe.length
        · rw [pipe_getD_set_self _ _ _ hj, dictGet_dictPop_ne _ _ _ hnm2,
            dictGet_dictSet_ne _ _ _ _ hnm1]
        · rw [list_set_oob _ _ _ (by omega)]
      · rw [pipe_getD_set_ne _ _ _ _ hc]
    · rw [if_neg hname]
      exact ih (i + 1) pipe c nm
        (fun k hk hkt => by
          have := h (k + 1) (by simpa using Nat.succ_lt_succ hk) hkt
          have heq : i + (k + 1) = i + 1 + k := by omega
          rwa [heq] at this)

theorem commitGo_write (ci : List Nat) (target : String) :
    ∀ (best : List (String × JAtom)) (i : Nat) (pipe : Pipe) (j : Nat) (hj : j < best.length),
    (best.get ⟨j, hj⟩).1 ≠ target →
    ci.getD (i + j) 0 < pipe.length →
    pipeKeysNodup pipe →
    (∀ k (hk : k < best.length), j < k → (best.get ⟨k, hk⟩).1 ≠ target →
      ¬(ci.getD (i + k) 0 = ci.getD (i + j) 0 ∧
        ((best.get ⟨k, hk⟩).1 = (best.get ⟨j, hj⟩).1 ∨
         (best.get ⟨k, hk⟩).1 ++ PARAM_RANGE_SUFFIX_NAME = (best.get ⟨j, hj⟩).1 ∨
         (best.get ⟨k, hk⟩).1 = (best.get ⟨j, hj⟩).1 ++ PARAM_RANGE_SUFFIX_NAME))) →
    dictGet ((commitGo ci target i best pipe).getD (ci.getD (i + j) 0) [])
        (best.get ⟨j, hj⟩).1 = some (JVal.atom (best.get ⟨j, hj⟩).2) ∧
    dictGet ((commitGo ci target i best pipe).getD (ci.getD (i + j) 0) [])
        ((best.get ⟨j, hj⟩).1 ++ PARAM_RANGE_SUFFIX_NAME) = none := by
  intro best
  induction best with
  | nil => intro i pipe j hj; simp at hj
  | cons kv rest ih =>
    obtain ⟨name, v⟩ := kv
    intro i pipe j hj hjt hbound hnod hcol
    cases j with
    | zero =>
      simp only [List.get, Nat.add_zero] at hjt hbound hcol ⊢
      rw [commitGo, if_pos hjt]
      have hnst : ((dictSet (pipe.getD (ci.getD i 0) []) name (JVal.atom v)).map
          Prod.fst).Nodup :=
        keysNodup_dictSet _ _ _ (hnod _ (pipe_getD_mem _ _ hbound))
      have hself : (pipe.set (ci.getD i 0)
          (dictPop (dictSet (pipe.getD (ci.getD i 0) []) name (JVal.atom v))
            (name ++ PARAM_RANGE_SUFFIX_NAME))).getD (ci.getD i 0) [] =
          dictPop (dictSet (pipe.getD (ci.getD i 0) []) name (JVal.atom v))
            (name ++ PARAM_RANGE_SUFFIX_NAME) :=
        pipe_getD_set_self _ _ _ (by simpa using hbound)
      constructor
      · rw [commitGo_preserve ci target rest (i + 1) _ _ _
          (fun k hk hkt => by
            have := hcol (k + 1) (by simpa using Nat.succ_lt_succ hk) (by omega) hkt
            have heq : i + (k + 1) = i + 1 + k := by omega
            rw [heq] at this
            intro hand
            rcases hand.2 with h2 | h2
            · exact this ⟨hand.1, Or.inl h2⟩
            · exact this ⟨hand.1, Or.inr (Or.inl h2)⟩)]
        rw [hself,
          dictGet_dictPop_ne _ _ _ (fun he => string_ne_append_range name he.symm),
          dictGet_dictSet_self]
      · rw [commitGo_preserve ci target rest (i + 1) _ _ _
          (fun k hk hkt => by
            have := hcol (k + 1) (by simpa using Nat.succ_lt_succ hk) (by omega) hkt
            have heq : i + (k + 1) = i + 1 + k := by omega
            rw [heq] at this
            intro hand
            refine this ⟨hand.1, ?_⟩
            rcases hand.2 with h2 | h2
            · exact Or.inr (Or.inr h2)
            · exact Or.inl (string_append_range_inj h2))]
        rw [hself]
        exact dictGet_dictPop_self _ _ hnst
    | succ j =>
      have heq : i + (j + 1) = i + 1 + j := by omega
      rw [heq] at hbound ⊢
      rw [commitGo]
      by_cases hname : name ≠ target
      · rw [if_pos hname]
        refine ih (i + 1) _ j (by simpa using hj) hjt (by simpa using hbound) ?_ ?_
        · refine pipeKeysNodup_set _ _ _ hnod ?_
          by_cases hb0 : ci.getD i 0 < pipe.length
          · exact keysNodup_dictPop _ _
              (keysNodup_dictSet _ _ _ (hnod _ (pipe_getD_mem _ _ hb0)))
          · have : pipe.getD (ci.getD i 0) [] = [] := by
              rw [List.getD_eq_getElem?_getD, List.getElem?_eq_none (by omega)]
              rfl
            rw [this]
            simp only [dictSet, dictPop]
            rw [if_neg (string_ne_append_range name)]
            simp
        · intro k hk hjk hkt
          have := hcol (k + 1) (by simpa using Nat.succ_lt_succ hk) (by omega) hkt
          have heq2 : i + (k + 1) = i + 1 + k := by omega
          rw [heq2, heq] at this
          exact this
      · rw [if_neg hname]
        refine ih (i + 1) pipe j (by simpa using hj) hjt (by simpa using hbound) hnod ?_
        intro k hk hjk hkt
        have := hcol (k + 1) (by simpa using Nat.succ_lt_succ hk) (by omega) hkt
        have heq2 : i + (k + 1) = i + 1 + k := by omega
        rw [heq2, heq] at this
        exact this

/-! ## C3: the final commit -/

/-- Claim C3, counterexample: The claim says committing does not mutate the
original configuration object.  It does: `config_best_model = config_init.copy()`
is a shallow copy, so the commit loop writes into the very stage dicts of
`config_init` — after the run the shared pipe (which `config_init` references)
has lost its `lr_range` key and carries the winning value, while the pipe as
read from disk still had the range key. -/
theorem C3_counterexample_commit_mutates_original :
    (mainRun "grid" "2" "acc" (constEval 1) onePipe oneFs).pipe ≠ onePipe ∧
    dictGet ((mainRun "grid" "2" "acc" (constEval 1) onePipe oneFs).pipe.getD 0 [])
      "lr_range" = none ∧
    dictGet ((mainRun "grid" "2" "acc" (constEval 1) onePipe oneFs).pipe.getD 0 [])
      "lr" = some (jnum 1) ∧
    dictGet (onePipe.getD 0 []) "lr_range" = some (JVal.arr [.num 1, .num 2]) := by
  decide

/-- Claim C3, amended: The committed configuration does contain, for every
resolved axis, the winning concrete value at that axis's (stage,
parameter-name) location, with the range-suffixed key for that parameter
removed — but the commit happens in place on the pipe shared with the original
configuration (shallow copy), so the original configuration object is mutated
identically (see the counterexample). -/
theorem C3_commit_sets_value_removes_range (ci : List Nat) (target : String)
    (best : List (String × JAtom)) (pipe : Pipe)
    (hnod : pipeKeysNodup pipe)
    (hbound : ∀ j (hj : j < best.length), (best.get ⟨j, hj⟩).1 ≠ target →
      ci.getD j 0 < pipe.length)
    (hcol : ∀ j k (hj : j < best.length) (hk : k < best.length), j < k →
      (best.get ⟨k, hk⟩).1 ≠ target →
      ¬(ci.getD k 0 = ci.getD j 0 ∧
        ((best.get ⟨k, hk⟩).1 = (best.get ⟨j, hj⟩).1 ∨
         (best.get ⟨k, hk⟩).1 ++ PARAM_RANGE_SUFFIX_NAME = (best.get ⟨j, hj⟩).1 ∨
         (best.get ⟨k, hk⟩).1 = (best.get ⟨j, hj⟩).1 ++ PARAM_RANGE_SUFFIX_NAME))) :
    ∀ j (hj : j < best.length), (best.get ⟨j, hj⟩).1 ≠ target →
    dictGet ((commitGo ci target 0 best pipe).getD (ci.getD j 0) [])
        (best.get ⟨j, hj⟩).1 = some (JVal.atom (best.get ⟨j, hj⟩).2) ∧
    dictGet ((commitGo ci target 0 best pipe).getD (ci.getD j 0) [])
        ((best.get ⟨j, hj⟩).1 ++ PARAM_RANGE_SUFFIX_NAME) = none := by
  intro j hj hjt
  have hw := commitGo_write ci target best 0 pipe j hj hjt
    (by rw [Nat.zero_add]; exact hbound j hj hjt)
    hnod
    (fun k hk hjk hkt => by
      rw [Nat.zero_add, Nat.zero_add]
      exact hcol j k hj hk hjk hkt)
  rwa [Nat.zero_add] at hw

/-- Witness for C3 (amended): committing `best_params_dict =
[("lr", 1), ("acc", 1)]` on the loop-mutated one-stage pipe sets `lr = 1` and
removes `lr_range`. -/
theorem C3_commit_sets_value_removes_range_witness :
    dictGet ((commitGo [0] "acc" 0 [("lr", JAtom.num 1), ("acc", JAtom.num 1)]
        [[("in_y", jstr "y"), (SAVE_PATH_ELEMENT_NAME, jstr "model"),
          ("lr_range", JVal.arr [.num 1, .num 2]), ("lr", jnum 2)]]).getD 0 [])
      "lr" = some (jnum 1) ∧
    dictGet ((commitGo [0] "acc" 0 [("lr", JAtom.num 1), ("acc", JAtom.num 1)]
        [[("in_y", jstr "y"), (SAVE_PATH_ELEMENT_NAME, jstr "model"),
          ("lr_range", JVal.arr [.num 1, .num 2]), ("lr", jnum 2)]]).getD 0 [])
      "lr_range" = none := by
  have h := C3_commit_sets_value_removes_range [0] "acc"
    [("lr", JAtom.num 1), ("acc", JAtom.num 1)]
    [[("in_y", jstr "y"), (SAVE_PATH_ELEMENT_NAME, jstr "model"),
      ("lr_range", JVal.arr [.num 1, .num 2]), ("lr", jnum 2)]]
    (by intro st hst; simp only [List.mem_singleton] at hst; rw [hst]; decide)
    (by
      intro j hj hne
      have h2 : j < 2 := hj
      interval_cases j
      · decide
      · exact absurd rfl hne)
    (by
      intro j k hj hk hjk hkt
      have hk2 : k < 2 := hk
      interval_cases k
      · omega
      · exact absurd rfl hkt)
    0 (by decide) (by decide)
  exact h

/-! ## C10: extractor/driver positional alignment

Specification-side characterisation of the extraction loop: the per-stage axis
list (in key order), the per-axis stage indices, and the collected save paths. -/

/-- The axes declared by one stage, in key order: stripped name and candidate
list per range-suffixed key. -/
def stageAxes (elem : Stage) : List (String × List JAtom) :=
  elem.filterMap (fun kv =>
    if strEndsWith kv.1 PARAM_RANGE_SUFFIX_NAME then
      some (stripRange kv.1, jvalList kv.2)
    else none)

/-- All axes of the pipe, stage by stage. -/
def collectAxes : Pipe → List (String × List JAtom)
  | [] => []
  | e :: rest => stageAxes e ++ collectAxes rest

/-- The stage index contributed to `chainer_items` for each axis, starting at
stage index `n`. -/
def collectIdx : Nat → Pipe → List Nat
  | _, [] => []
  | n, e :: rest => List.replicate (stageAxes e).length n ++ collectIdx (n + 1) rest

/-- The save paths collected into `models_paths`, stage by stage. -/
def collectPaths : Pipe → List String
  | [] => []
  | e :: rest =>
    (if (dictContains e "in_y" || dictContains e "fit_on" || dictContains e "fit_on_batch")
        && dictContains e SAVE_PATH_ELEMENT_NAME then
      [jvalStr ((dictGet e SAVE_PATH_ELEMENT_NAME).getD (jstr ""))]
    else []) ++ collectPaths rest

theorem extractStep_eq (acc : ExtractResult) (i : Nat) (elem : Stage) :
    extractStep acc i elem =
      ⟨(stageAxes elem).foldl (fun d a => dictSet d a.1 a.2) acc.param_values,
       acc.chainer_items ++ List.replicate (stageAxes elem).length i,
       acc.models_paths ++
         (if (dictContains elem "in_y" || dictContains elem "fit_on" ||
              dictContains elem "fit_on_batch") && dictContains elem SAVE_PATH_ELEMENT_NAME then
           [jvalStr ((dictGet elem SAVE_PATH_ELEMENT_NAME).getD (jstr ""))]
         else [])⟩ := by
  have hfold : ∀ (el : Stage) (a : ExtractResult),
      el.foldl (fun a kv =>
        if strEndsWith kv.1 PARAM_RANGE_SUFFIX_NAME then
          { a with
            param_values := dictSet a.param_values (stripRange kv.1) (jvalList kv.2),
            chainer_items := a.chainer_items ++ [i] }
        else a) a =
      ⟨(stageAxes el).foldl (fun d x => dictSet d x.1 x.2) a.param_values,
       a.chainer_items ++ List.replicate (stageAxes el).length i,
       a.models_paths⟩ := by
    intro el
    induction el with
    | nil => intro a; simp [stageAxes]
    | cons kv rest ih =>
      intro a
      by_cases hk : strEndsWith kv.1 PARAM_RANGE_SUFFIX_NAME = true
      · simp only [List.foldl_cons, hk, if_true, ih, stageAxes, List.filterMap_cons, hk,
          List.foldl_cons, List.length_cons, List.replicate_succ]
        simp [List.append_assoc]
      · simp [List.foldl_cons, hk, ih, stageAxes, List.filterMap_cons]
  rw [extractStep]
  rw [hfold elem acc]
  split
  · rfl
  · simp

theorem extractGo_eq : ∀ (stages : Pipe) (n : Nat) (acc : ExtractResult),
    extractGo n stages acc =
      ⟨(collectAxes stages).foldl (fun d a => dictSet d a.1 a.2) acc.param_values,
       acc.chainer_items ++ collectIdx n stages,
       acc.models_paths ++ collectPaths stages⟩ := by
  intro stages
  induction stages with
  | nil => intro n acc; simp [extractGo, collectAxes, collectIdx, collectPaths]
  | cons e rest ih =>
    intro n acc
    rw [extractGo, extractStep_eq, ih, collectAxes, collectIdx, collectPaths]
    simp [List.foldl_append, List.append_assoc]

theorem dictSet_fresh {β : Type} (d : List (String × β)) (k : String) (v : β)
    (h : k ∉ d.map Prod.fst) : dictSet d k v = d ++ [(k, v)] := by
  induction d with
  | nil => rfl
  | cons kv rest ih =>
    obtain ⟨k', v'⟩ := kv
    simp only [List.map_cons, List.mem_cons, not_or] at h
    simp only [dictSet, if_neg (fun he : k' = k => h.1 he.symm), List.cons_append]
    rw [ih h.2]

theorem foldl_dictSet_append {β : Type} :
    ∀ (axes : List (String × β)) (d : List (String × β)),
    (∀ a ∈ axes, a.1 ∉ d.map Prod.fst) → (axes.map Prod.fst).Nodup →
    axes.foldl (fun d a => dictSet d a.1 a.2) d = d ++ axes := by
  intro axes
  induction axes with
  | nil => intro d _ _; simp
  | cons a rest ih =>
    intro d hfresh hnod
    simp only [List.map_cons, List.nodup_cons] at hnod
    rw [List.foldl_cons, dictSet_fresh d a.1 a.2 (hfresh a (List.mem_cons_self a rest))]
    rw [ih (d ++ [(a.1, a.2)])
      (fun b hb => by
        simp only [List.map_append, List.mem_append, List.map_cons, List.map_nil,
          List.mem_singleton, not_or]
        refine ⟨hfresh b (List.mem_cons_of_mem a hb), fun he => ?_⟩
        exact hnod.1 (he ▸ List.mem_map_of_mem Prod.fst hb)) hnod.2]
    simp

theorem getD_replicate_lt {α : Type} (n i : Nat) (x d : α) (h : i < n) :
    (List.replicate n x).getD i d = x := by
  rw [List.getD_eq_getElem _ _ (by simpa using h)]
  simp

theorem nodup_of_length_le_one {α : Type} (l : List α) (h : l.length ≤ 1) : l.Nodup := by
  cases l with
  | nil => exact List.nodup_nil
  | cons x xs =>
    cases xs with
    | nil => exact List.nodup_singleton x
    | cons y ys => simp at h

theorem collectIdx_length : ∀ (stages : Pipe) (n : Nat),
    (collectIdx n stages).length = (collectAxes stages).length := by
  intro stages
  induction stages with
  | nil => intro n; rfl
  | cons e rest ih =>
    intro n
    simp [collectIdx, collectAxes, ih]

theorem mem_stageAxes {a : String × List JAtom} {st : Stage} :
    a ∈ stageAxes st ↔ ∃ k v, (k, v) ∈ st ∧ strEndsWith k PARAM_RANGE_SUFFIX_NAME = true ∧
      stripRange k = a.1 ∧ jvalList v = a.2 := by
  constructor
  · intro h
    obtain ⟨kv, hmem, hf⟩ := List.mem_filterMap.mp h
    by_cases hk : strEndsWith kv.1 PARAM_RANGE_SUFFIX_NAME = true
    · rw [if_pos hk] at hf
      injection hf with hf2
      exact ⟨kv.1, kv.2, hmem, hk, congrArg Prod.fst hf2, congrArg Prod.snd hf2⟩
    · rw [if_neg hk] at hf
      exact absurd hf (by simp)
  · rintro ⟨k, v, hmem, hk, h1, h2⟩
    refine List.mem_filterMap.mpr ⟨(k, v), hmem, ?_⟩
    rw [if_pos hk, h1, h2]

theorem mem_collectAxes : ∀ (stages : Pipe) (a : String × List JAtom),
    a ∈ collectAxes stages → ∃ st ∈ stages, a ∈ stageAxes st := by
  intro stages
  induction stages with
  | nil => intro a h; simp [collectAxes] at h
  | cons e rest ih =>
    intro a h
    rcases List.mem_append.mp h with h1 | h1
    · exact ⟨e, List.mem_cons_self _ _, h1⟩
    · obtain ⟨st, hst, hm⟩ := ih a h1
      exact ⟨st, List.mem_cons_of_mem _ hst, hm⟩

/-- Pairwise disjointness condition of C10: two distinct stages never declare
range keys with the same stripped parameter name. -/
abbrev axesDisjoint (s1 s2 : Stage) : Prop :=
  ∀ kv1 ∈ s1, ∀ kv2 ∈ s2,
    strEndsWith kv1.1 PARAM_RANGE_SUFFIX_NAME = true →
    strEndsWith kv2.1 PARAM_RANGE_SUFFIX_NAME = true →
    stripRange kv1.1 ≠ stripRange kv2.1

theorem collectAxes_keys_nodup : ∀ (stages : Pipe),
    stages.Pairwise axesDisjoint → (∀ st ∈ stages, (stageAxes st).length ≤ 1) →
    ((collectAxes stages).map Prod.fst).Nodup := by
  intro stages
  induction stages with
  | nil => intro _ _; simp [collectAxes]
  | cons e rest ih =>
    intro hpair hone
    rw [List.pairwise_cons] at hpair
    rw [collectAxes, List.map_append, List.nodup_append]
    refine ⟨?_, ih hpair.2 (fun st hst => hone st (List.mem_cons_of_mem _ hst)), ?_⟩
    · refine nodup_of_length_le_one _ ?_
      rw [List.length_map]
      exact hone e (List.mem_cons_self _ _)
    · intro s hs1 hs2
      obtain ⟨a1, ha1, he1⟩ := List.mem_map.mp hs1
      obtain ⟨a2, ha2, he2⟩ := List.mem_map.mp hs2
      obtain ⟨k1, v1, hm1, hk1, hstrip1, _⟩ := mem_stageAxes.mp ha1
      obtain ⟨st2, hst2, ha2'⟩ := mem_collectAxes rest a2 ha2
      obtain ⟨k2, v2, hm2, hk2, hstrip2, _⟩ := mem_stageAxes.mp ha2'
      exact hpair.1 st2 hst2 (k1, v1) hm1 (k2, v2) hm2 hk1 hk2
        (by rw [hstrip1, hstrip2, he1, he2])

theorem collect_align : ∀ (stages : Pipe) (n i : Nat)
    (hi : i < (collectAxes stages).length),
    ∃ j, ∃ hj : j < stages.length, (collectIdx n stages).getD i 0 = n + j ∧
      (collectAxes stages).getD i ("", []) ∈ stageAxes (stages.get ⟨j, hj⟩) := by
  intro stages
  induction stages with
  | nil => intro n i hi; simp [collectAxes] at hi
  | cons e rest ih =>
    intro n i hi
    by_cases hlt : i < (stageAxes e).length
    · refine ⟨0, by simp, ?_, ?_⟩
      · rw [collectIdx, List.getD_append _ _ _ _ (by simpa using hlt),
          getD_replicate_lt _ _ _ _ hlt]
        omega
      · rw [collectAxes, List.getD_append _ _ _ _ hlt]
        simp only [List.get]
        rw [List.getD_eq_getElem _ _ hlt]
        exact List.getElem_mem hlt
    · have hge : (stageAxes e).length ≤ i := by omega
      have hi' : i - (stageAxes e).length < (collectAxes rest).length := by
        rw [collectAxes, List.length_append] at hi
        omega
      obtain ⟨j, hj, hidx, hmem⟩ := ih (n + 1) (i - (stageAxes e).length) hi'
      refine ⟨j + 1, by simpa using hj, ?_, ?_⟩
      · rw [collectIdx, List.getD_append_right _ _ _ _ (by simpa using hge)]
        simp only [List.length_replicate]
        rw [hidx]
        omega
      · rw [collectAxes, List.getD_append_right _ _ _ _ hge]
        exact hmem

/-- Under C10's preconditions every dict insert during extraction is a fresh
append, so `param_values` is exactly the stage-by-stage axis list and
`chainer_items` the matching stage-index list. -/
theorem extractParams_align (pipe : Pipe)
    (hpair : pipe.Pairwise axesDisjoint)
    (hone : ∀ st ∈ pipe, (stageAxes st).length ≤ 1) :
    (extractParams pipe).param_values = collectAxes pipe ∧
    (extractParams pipe).chainer_items = collectIdx 0 pipe := by
  rw [extractParams, extractGo_eq]
  constructor
  · show (collectAxes pipe).foldl (fun d a => dictSet d a.1 a.2) [] = collectAxes pipe
    rw [foldl_dictSet_append _ [] (by simp) (collectAxes_keys_nodup pipe hpair hone)]
    simp
  · simp

/-- The two-stage configuration of C10's failure scenario: both stages declare
`lr_range`. -/
def dupPipe : Pipe := [[("lr_range", JVal.arr [.num 1])], [("lr_range", JVal.arr [.num 2])]]

/-- Claim C10: When every stripped range-parameter name occurs in exactly one
stage (pairwise disjoint stripped names) and each stage declares at most one
range key, the extractor's positional mapping is correct: `chainer_items` and
`param_values` have equal length, and for each position `i`, stage
`chainer_items[i]` really declares a range key whose stripped name and
candidate list are the ones stored at `param_values[i]`.  Without the
precondition the mapping breaks: in `dupPipe`, where both stages declare
`lr_range`, the later stage's candidate list silently replaces the earlier
one's (one axis, two recorded stage indices), and the substitution writes the
value drawn from stage 1's candidate list into stage 0 — the wrong (stage,
parameter) pair. -/
theorem C10_extractor_driver_alignment (pipe : Pipe)
    (hpair : pipe.Pairwise axesDisjoint)
    (hone : ∀ st ∈ pipe, (stageAxes st).length ≤ 1) :
    (extractParams pipe).chainer_items.length = (extractParams pipe).param_values.length ∧
    (∀ i, i < (extractParams pipe).param_values.length →
      ∃ j, ∃ hj : j < pipe.length, (extractParams pipe).chainer_items.getD i 0 = j ∧
        ∃ k v, (k, v) ∈ pipe.get ⟨j, hj⟩ ∧ strEndsWith k PARAM_RANGE_SUFFIX_NAME = true ∧
          stripRange k = ((extractParams pipe).param_values.getD i ("", [])).1 ∧
          jvalList v = ((extractParams pipe).param_values.getD i ("", [])).2) ∧
    (extractParams dupPipe).param_values = [("lr", [JAtom.num 2])] ∧
    (extractParams dupPipe).chainer_items = [0, 1] ∧
    dictGet ((applyComb (extractParams dupPipe).chainer_items
        ((extractParams dupPipe).param_values.map (fun kv => kv.1)) dupPipe
        [JAtom.num 2]).getD 0 []) "lr" = some (jnum 2) ∧
    dictGet ((applyComb (extractParams dupPipe).chainer_items
        ((extractParams dupPipe).param_values.map (fun kv => kv.1)) dupPipe
        [JAtom.num 2]).getD 1 []) "lr" = none := by
  obtain ⟨hpv, hci⟩ := extractParams_align pipe hpair hone
  refine ⟨?_, ?_, by decide, by decide, by decide, by decide⟩
  · rw [hpv, hci, collectIdx_length]
  · intro i hi
    rw [hpv] at hi
    obtain ⟨j, hj, hidx, hmem⟩ := collect_align pipe 0 i hi
    refine ⟨j, hj, by rw [hci, hidx]; omega, ?_⟩
    obtain ⟨k, v, hkv, hk, h1, h2⟩ := mem_stageAxes.mp hmem
    exact ⟨k, v, hkv, hk, by rw [hpv]; exact h1, by rw [hpv]; exact h2⟩

/-- Witness for C10 at a well-formed two-axis configuration: the extractor's
positional mapping has matching lengths. -/
theorem C10_extractor_driver_alignment_witness :
    (extractParams [[("a_range", JVal.arr [JAtom.num 1])],
      [("b_range", JVal.arr [JAtom.num 2])]]).chainer_items.length =
    (extractParams [[("a_range", JVal.arr [JAtom.num 1])],
      [("b_range", JVal.arr [JAtom.num 2])]]).param_values.length := by
  have h := C10_extractor_driver_alignment
    [[("a_range", JVal.arr [JAtom.num 1])], [("b_range", JVal.arr [JAtom.num 2])]]
    (by decide) (by decide)
  exact h.1
